import Mathlib

/-!
Verification of the ECDSA file signer (Saulo-Fonseca/ECDSA).

Shallow embedding of the two source files:
  * GaloisField.hpp — class GF: modular arithmetic on (num, prime) pairs of
    GMP big integers.  Every operator reduces through mpz_mod (always
    non-negative), which we model with Int.emod.  Operators that abort on
    mismatched moduli are modelled twice: a total same-modulus version
    (GF.add, GF.sub, ...) used by the curve layer, where the program only
    ever combines equal moduli, and a checked version (GF.addChk, ...)
    returning Option GF, where `none` models the fatal abort() path.
  * ecdsa.cpp — secp256k1 constants, point addition `add`, double-and-add
    scalar multiplication `priv2pub`, private-key sampling `genPriv`, the
    signing retry loop and the recovery-based verification loop from main().

GMP's mpz_powm is modelled by `powMod`, a fuel-driven binary square-and-
multiply (the fuel pattern keeps the definition structurally recursive while
remaining kernel-evaluable on 256-bit inputs); `powMod_eq` proves it equal to
`b ^ e % m`.
-/

/-- Binary modular exponentiation, fuel-driven.  Mirrors mpz_powm. -/
def powModAux (m : Nat) : Nat → Nat → Nat → Nat
  | 0, _, _ => 1 % m
  | fuel+1, b, e =>
    if e = 0 then 1 % m
    else
      let r := powModAux m fuel (b * b % m) (e / 2)
      if e % 2 = 1 then r * b % m else r

/-- powMod b e m = b ^ e mod m, with enough fuel for any exponent. -/
def powMod (b e m : Nat) : Nat := powModAux m (e + 1) b e

theorem powModAux_eq (m : Nat) :
    ∀ fuel b e, e < 2 ^ fuel → powModAux m fuel b e = b ^ e % m := by
  intro fuel
  induction fuel with
  | zero =>
    intro b e he
    have he0 : e = 0 := by simpa using Nat.lt_one_iff.mp (by simpa using he)
    simp [powModAux, he0]
  | succ n ih =>
    intro b e he
    by_cases h0 : e = 0
    · simp [powModAux, h0]
    · have hdiv : e / 2 < 2 ^ n := by
        have h2 : e < 2 ^ n * 2 := by
          simpa [Nat.pow_succ] using he
        exact Nat.div_lt_of_lt_mul (by omega)
      have hrec := ih (b * b % m) (e / 2) hdiv
      have hbb : (b * b % m) ^ (e / 2) % m = (b * b) ^ (e / 2) % m := by
        rw [← Nat.pow_mod]
      by_cases hodd : e % 2 = 1
      · have hsplit : b ^ e = (b * b) ^ (e / 2) * b := by
          have : e = 2 * (e / 2) + 1 := by omega
          calc b ^ e = b ^ (2 * (e / 2) + 1) := by rw [← this]
            _ = (b ^ 2) ^ (e / 2) * b := by
                rw [pow_add, pow_mul, pow_one]
            _ = (b * b) ^ (e / 2) * b := by ring_nf
        simp only [powModAux, h0, if_false, hodd, if_true, hrec, hbb]
        rw [Nat.mod_mul_mod, ← hsplit]
      · have heven : e % 2 = 0 := by omega
        have hsplit : b ^ e = (b * b) ^ (e / 2) := by
          have : e = 2 * (e / 2) := by omega
          calc b ^ e = b ^ (2 * (e / 2)) := by rw [← this]
            _ = (b ^ 2) ^ (e / 2) := by rw [pow_mul]
            _ = (b * b) ^ (e / 2) := by ring_nf
        simp only [powModAux, h0, if_false, hodd, if_false, hrec, hbb]
        rw [← hsplit]

theorem powMod_eq (b e m : Nat) : powMod b e m = b ^ e % m := by
  refine powModAux_eq m (e + 1) b e ?_
  exact Nat.lt_trans e.lt_two_pow (Nat.pow_lt_pow_succ (by omega))

theorem powMod_lt (b e : Nat) {m : Nat} (hm : 0 < m) : powMod b e m < m := by
  rw [powMod_eq]; exact Nat.mod_lt _ hm

/-- class GF of GaloisField.hpp: a (num, prime) pair of big integers. -/
structure GF where
  num : Int
  prime : Int
deriving DecidableEq, Repr

/-- GF(n, p) constructor: mpz_mod(num, n, p); prime = p.  mpz_mod always
returns a non-negative remainder, which Int % matches for p > 0. -/
def GF.make (n p : Int) : GF := ⟨n % p, p⟩

/-- operator==(GF): num == other.num and prime == other.prime. -/
def GF.beq (a b : GF) : Bool := a.num == b.num && a.prime == b.prime

/-- operator==(int n): GF(num,prime) == GF(n,prime) (both sides rebuilt
through the reducing constructor). -/
def GF.eqI (a : GF) (n : Int) : Bool :=
  GF.beq (GF.make a.num a.prime) (GF.make n a.prime)

/-- operator+ on equal moduli: mpz_mod(num + other.num) then constructor. -/
def GF.add (a b : GF) : GF := GF.make (a.num + b.num) a.prime

/-- operator- on equal moduli. -/
def GF.sub (a b : GF) : GF := GF.make (a.num - b.num) a.prime

/-- unary operator-: GF(-num, prime). -/
def GF.neg (a : GF) : GF := GF.make (-a.num) a.prime

/-- operator* on equal moduli. -/
def GF.mul (a b : GF) : GF := GF.make (a.num * b.num) a.prime

/-- GF::pow(mpz exp): exponent reduced by mpz_mod(exp, prime - 1), then
mpz_powm(num, e, prime), then the constructor. -/
def GF.pow (a : GF) (e : Int) : GF :=
  GF.make (powMod a.num.toNat (e % (a.prime - 1)).toNat a.prime.toNat) a.prime

/-- operator/ : GF(num,prime) * other.pow(prime - 2).  Note: only the moduli
are checked in the source; there is no zero-divisor check. -/
def GF.div (a b : GF) : GF := (GF.make a.num a.prime).mul (b.pow (a.prime - 2))

/-- operator% : mpz_mod(num, other.num) then the constructor.  (GMP raises
SIGFPE when other.num = 0; the program never returns in that case, so
theorems about operator% carry a nonzero-divisor hypothesis.) -/
def GF.rem (a b : GF) : GF := GF.make (a.num % b.num) a.prime

/-- operator+(int n): GF(num,prime) + GF(n,prime). -/
def GF.addI (a : GF) (n : Int) : GF := (GF.make a.num a.prime).add (GF.make n a.prime)

/-- operator-(int n). -/
def GF.subI (a : GF) (n : Int) : GF := (GF.make a.num a.prime).sub (GF.make n a.prime)

/-- operator*(int n). -/
def GF.mulI (a : GF) (n : Int) : GF := (GF.make a.num a.prime).mul (GF.make n a.prime)

/-- operator%(int n). -/
def GF.remI (a : GF) (n : Int) : GF := (GF.make a.num a.prime).rem (GF.make n a.prime)

/-- pow(int n): GF(num,prime).pow(n). -/
def GF.powI (a : GF) (n : Int) : GF := (GF.make a.num a.prime).pow n

/-- operator+ with its modulus check: `none` models the abort() path
("Cannot add two numbers in different Fields"). -/
def GF.addChk (a b : GF) : Option GF :=
  if a.prime = b.prime then some (a.add b) else none

/-- operator- with its modulus check. -/
def GF.subChk (a b : GF) : Option GF :=
  if a.prime = b.prime then some (a.sub b) else none

/-- operator* with its modulus check. -/
def GF.mulChk (a b : GF) : Option GF :=
  if a.prime = b.prime then some (a.mul b) else none

/-- operator/ with its modulus check — the only check division performs. -/
def GF.divChk (a b : GF) : Option GF :=
  if a.prime = b.prime then some (a.div b) else none

/-- operator% with its modulus check. -/
def GF.remChk (a b : GF) : Option GF :=
  if a.prime = b.prime then some (a.rem b) else none

theorem GF.make_num_nonneg {p : Int} (hp : p ≠ 0) (n : Int) :
    0 ≤ (GF.make n p).num := Int.emod_nonneg n hp

theorem GF.make_num_lt {p : Int} (hp : 0 < p) (n : Int) :
    (GF.make n p).num < p := Int.emod_lt_of_pos n hp

theorem GF.make_idem (n p : Int) : GF.make (GF.make n p).num p = GF.make n p := by
  simp only [GF.make, GF.mk.injEq, and_true]
  exact Int.emod_emod_of_dvd n dvd_rfl

theorem GF.make_prime (n p : Int) : (GF.make n p).prime = p := rfl

/-! ## secp256k1 constants (class Curve in ecdsa.cpp) -/

/-- Field prime P as a natural number. -/
def Pn : Nat := 0xFFFFFFFFFFFFFFFFFFFFFFFFFFFFFFFFFFFFFFFFFFFFFFFFFFFFFFFEFFFFFC2F

/-- Group order N as a natural number. -/
def Nn : Nat := 0xFFFFFFFFFFFFFFFFFFFFFFFFFFFFFFFEBAAEDCE6AF48A03BBFD25E8CD0364141

/-- Field prime P (secp256k1.P). -/
def Pv : Int := 0xFFFFFFFFFFFFFFFFFFFFFFFFFFFFFFFFFFFFFFFFFFFFFFFFFFFFFFFEFFFFFC2F

/-- Group order N (secp256k1.N). -/
def Nv : Int := 0xFFFFFFFFFFFFFFFFFFFFFFFFFFFFFFFEBAAEDCE6AF48A03BBFD25E8CD0364141

/-- Generator x coordinate. -/
def Gxv : Int := 0x79BE667EF9DCBBAC55A06295CE870B07029BFCDB2DCE28D959F2815B16F81798

/-- Generator y coordinate. -/
def Gyv : Int := 0x483ADA7726A3C4655DA4FBFC0E1108A8FD17B448A68554199C47D08FFB10D4B8

/-- struct point of ecdsa.cpp. -/
structure Point where
  x : GF
  y : GF
deriving DecidableEq, Repr

/-- The generator G = (GF(x,P), GF(y,P)). -/
def secpG : Point := ⟨GF.make Gxv Pv, GF.make Gyv Pv⟩

/-- The (0,0) coordinate pair the program uses as the identity sentinel. -/
def pZero : Point := ⟨GF.make 0 Pv, GF.make 0 Pv⟩

/-- Point addition `add(p, q)` of ecdsa.cpp.  Tangent slope when the two
points are coordinate-equal, chord slope otherwise.  There is no special
case for the (0,0) identity sentinel here. -/
def pAdd (p q : Point) : Point :=
  let lam : GF :=
    if p.x.beq q.x && p.y.beq q.y then
      ((p.x.powI 2).mulI 3).div (p.y.mulI 2)
    else
      (q.y.sub p.y).div (q.x.sub p.x)
  let rx := ((lam.powI 2).sub p.x).sub q.x
  let ry := (lam.mul (p.x.sub rx)).sub p.y
  ⟨rx, ry⟩

/-- One iteration body of the priv2pub loop: when the current bit of the
scalar is set, an accumulator still equal to the (0,0) sentinel is replaced
by the addend G directly; otherwise it is added with `add`. -/
def p2pStep (pub G : Point) (bitSet : Bool) : Point :=
  if bitSet then
    if pub.x.eqI 0 && pub.y.eqI 0 then G
    else pAdd pub G
  else pub

/-- The 256-iteration double-and-add loop of priv2pub: bit i of sk selects
whether the running power of the base point is folded in; the base point is
doubled every iteration. -/
def p2pLoop (sk : Nat) : Nat → Nat → Point → Point → Point
  | 0, _, pub, _ => pub
  | fuel+1, i, pub, G =>
    p2pLoop sk fuel (i + 1) (p2pStep pub G (sk.testBit i)) (pAdd G G)

/-- priv2pub(sk, Q): scalar multiplication of Q (default: the generator) by
the bits of sk.num, starting from the (0,0) sentinel accumulator. -/
def priv2pub (sk : GF) (Q : Option Point) : Point :=
  let G := match Q with
    | none => secpG
    | some q => q
  p2pLoop sk.num.toNat 256 0 pZero G

/-- genPriv() driven by the stream of /dev/random candidate draws: candidates
outside (0, N) are rejected and resampled; the accepted draw is wrapped as
GF(key, secp256k1.P). -/
def genPriv : List Int → Option GF
  | [] => none
  | k :: ks => if k ≤ 0 ∨ Nv ≤ k then genPriv ks else some (GF.make k Pv)

/-- One attempt of the signing loop in main(): pk = priv2pub(sk), R = pk.x,
S = (message + GF(privKey.num,N) * GF(R.num,N)) / GF(sk.num,N). -/
def signAttempt (msg priv k : GF) : GF × GF :=
  let pk := priv2pub k none
  let R := pk.x
  let S := (msg.add ((GF.make priv.num Nv).mul (GF.make R.num Nv))).div
      (GF.make k.num Nv)
  (R, S)

/-- The inner do-while condition: R == GF(0,P) or S == GF(0,N). -/
def signRejected (RS : GF × GF) : Bool :=
  RS.1.beq (GF.make 0 Pv) || RS.2.beq (GF.make 0 Nv)

/-- The inner signing loop over the stream of nonces produced by genPriv:
an attempt with R == 0 or S == 0 is discarded and the loop restarts with
the next nonce. -/
def signInner (msg priv : GF) : List GF → Option (GF × GF)
  | [] => none
  | k :: ks =>
    let RS := signAttempt msg priv k
    if signRejected RS then signInner msg priv ks else some RS

/-! ## Recovery-based verification (the for-loop over recovery ids in main) -/

/-- Candidate x coordinate: GF x = R + GF(N,P) * (i/2). -/
def recX (R : GF) (i : Nat) : GF :=
  R.add ((GF.make Nv Pv).mulI ((i / 2 : Nat) : Int))

/-- GF alpha = x.pow(3) + 7. -/
def recAlpha (R : GF) (i : Nat) : GF := ((recX R i).powI 3).addI 7

/-- GF beta = alpha.pow((P+1)/4). -/
def recBeta (R : GF) (i : Nat) : GF := (recAlpha R i).pow ((Pv + 1) / 4)

/-- y = beta when (beta - i) % 2 == 0, else -beta. -/
def recY (R : GF) (i : Nat) : GF :=
  let beta := recBeta R i
  if ((beta.subI (i : Int)).remI 2).eqI 0 then beta else beta.neg

/-- The candidate point r = (x, y). -/
def recPoint (R : GF) (i : Nat) : Point := ⟨recX R i, recY R i⟩

/-- Q = priv2pub(GF(R.num,N).pow(-1), add(priv2pub(S, r), priv2pub(-message))). -/
def recQ (R S msg : GF) (i : Nat) : Point :=
  let tmp := pAdd (priv2pub S (some (recPoint R i))) (priv2pub msg.neg none)
  priv2pub ((GF.make R.num Nv).powI (-1)) (some tmp)

/-- The verification loop: for i in 0..3, compute the candidate public point
Q and compare its uncompressed and compressed encoded identities against the
claimed identity; accepted iff some candidate matches.  The hash/Base58Check
encoding pipeline lives in excluded collaborator headers, so the two
encoders are abstract functions of Q's coordinates. -/
def verifyFound {α : Type} [DecidableEq α] (mkU mkC : Int → Int → α)
    (claimed : α) (R S msg : GF) : Bool :=
  (List.range 4).any fun i =>
    let Q := recQ R S msg i
    decide (mkU Q.x.num Q.y.num = claimed) || decide (mkC Q.x.num Q.y.num = claimed)

/-! ## Helper lemmas -/

theorem NltP : Nv < Pv := by decide

theorem Npos : (0:Int) < Nv := by decide

theorem Ppos : (0:Int) < Pv := by decide

theorem PtoNat : Pv.toNat = Pn := by decide

theorem NtoNat : Nv.toNat = Nn := by decide

/-- Casting an Int reduced mod c into ZMod c forgets the reduction. -/
theorem intCast_emod_zmod (a : Int) (c : Nat) :
    ((a % (c:Int) : Int) : ZMod c) = (a : ZMod c) := by
  rw [ZMod.intCast_eq_intCast_iff']
  exact Int.emod_emod_of_dvd a dvd_rfl

/-- Casting a toNat of a non-negative Int into ZMod c. -/
theorem toNat_cast_zmod (a : Int) (h : 0 ≤ a) (c : Nat) :
    ((a.toNat : Nat) : ZMod c) = (a : ZMod c) := by
  have h1 : ((a.toNat : Int)) = a := Int.toNat_of_nonneg h
  calc ((a.toNat : Nat) : ZMod c) = (((a.toNat : Nat) : Int) : ZMod c) := by
        rw [Int.cast_natCast]
    _ = (a : ZMod c) := by rw [h1]

/-- With a zero scalar the loop never fires and returns the accumulator. -/
theorem p2pLoop_zero : ∀ fuel i pub G, p2pLoop 0 fuel i pub G = pub := by
  intro fuel
  induction fuel with
  | zero => intro i pub G; rfl
  | succ n ih =>
    intro i pub G
    simp only [p2pLoop, p2pStep, Nat.zero_testBit, Bool.false_eq_true, if_false]
    exact ih (i + 1) pub (pAdd G G)

/-- Scalar 1 has no set bit beyond bit 0. -/
theorem testBit_one_succ (i : Nat) : Nat.testBit 1 (i + 1) = false := by
  rw [Nat.testBit_succ]
  simp

/-- Past bit 0, the loop for scalar 1 leaves the accumulator unchanged. -/
theorem p2pLoop_one_tail : ∀ fuel j pub G, p2pLoop 1 fuel (j + 1) pub G = pub := by
  intro fuel
  induction fuel with
  | zero => intro j pub G; rfl
  | succ n ih =>
    intro j pub G
    simp only [p2pLoop, p2pStep, testBit_one_succ, Bool.false_eq_true, if_false]
    exact ih (j + 1) pub (pAdd G G)

/-! ## C10 -/

/-- C10: deriving a public key from the zero scalar returns the (0,0)
sentinel pair unchanged: no bit of the scalar is set, so the double-and-add
loop of priv2pub returns its initial accumulator. -/
theorem C10_priv2pub_zero :
    priv2pub (GF.make 0 Pv) none = ⟨GF.make 0 Pv, GF.make 0 Pv⟩ := by
  have h : (GF.make 0 Pv).num.toNat = 0 := by decide
  show p2pLoop (GF.make 0 Pv).num.toNat 256 0 pZero secpG = pZero
  rw [h]
  exact p2pLoop_zero 256 0 pZero secpG

/-! ## C5 -/

set_option maxRecDepth 10000 in
/-- C5 counterexample: the generator G lies on the curve (Gy^2 = Gx^3 + 7 in
the field), yet add(G, (0,0)) ≠ G — the add function of ecdsa.cpp has no
special case for the identity sentinel, so the claim "add(P, Infinity) == P
for every point P on the curve" fails at P = G. -/
theorem C5_add_identity_cex :
    (secpG.y.mul secpG.y) = ((secpG.x.powI 3).addI 7) ∧ pAdd secpG pZero ≠ secpG := by
  constructor
  · decide
  · decide

set_option maxRecDepth 10000 in
/-- C5 amended: add(P, (0,0)) is not special-cased and generally differs
from P; the identity element is instead handled inside scalar
multiplication (priv2pub), whose loop body replaces a (0,0) accumulator by
the addend directly — so scalar 1 times the generator is the generator. -/
theorem C5_identity_amended :
    (∀ q : Point, p2pStep pZero q true = q)
    ∧ priv2pub (GF.make 1 Pv) none = secpG := by
  have hz : (pZero.x.eqI 0 && pZero.y.eqI 0) = true := by decide
  constructor
  · intro q
    simp [p2pStep, hz]
  · have h1 : (GF.make 1 Pv).num.toNat = 1 := by decide
    show p2pLoop (GF.make 1 Pv).num.toNat 256 0 pZero secpG = secpG
    rw [h1]
    show p2pLoop 1 255 1 (p2pStep pZero secpG (Nat.testBit 1 0)) (pAdd secpG secpG) = secpG
    have hb : Nat.testBit 1 0 = true := by decide
    rw [hb]
    have hstep : p2pStep pZero secpG true = secpG := by simp [p2pStep, hz]
    rw [hstep]
    exact p2pLoop_one_tail 255 0 secpG (pAdd secpG secpG)

/-! ## C3 -/

/-- C3 counterexample: genPriv wraps the accepted draw as GF(key, P) — its
modulus is the field prime P, not the group order N as the claim states. -/
theorem C3_modulus_cex :
    genPriv [1] = some (GF.make 1 Pv) ∧ (GF.make 1 Pv).prime ≠ Nv := by
  constructor
  · decide
  · decide

/-- C3 amended: generatePrivateKey rejects and resamples candidates outside
the open range (0, N) — it never reduces them — and returns the accepted
draw wrapped as a FieldElement over the FIELD-PRIME modulus P (not the
group-order modulus), with its value stored unreduced. -/
theorem C3_genPriv_amended (k : Int) (ks : List Int) :
    ((k ≤ 0 ∨ Nv ≤ k) → genPriv (k :: ks) = genPriv ks)
    ∧ (0 < k → k < Nv →
        genPriv (k :: ks) = some (GF.make k Pv)
        ∧ (GF.make k Pv).prime = Pv
        ∧ (GF.make k Pv).num = k
        ∧ 0 < (GF.make k Pv).num ∧ (GF.make k Pv).num < Nv) := by
  constructor
  · intro h
    simp only [genPriv, if_pos h]
  · intro h0 hN
    have hrej : ¬(k ≤ 0 ∨ Nv ≤ k) := by omega
    have hnum : (GF.make k Pv).num = k :=
      Int.emod_eq_of_lt (le_of_lt h0) (lt_trans hN NltP)
    refine ⟨by simp only [genPriv, if_neg hrej], rfl, hnum, ?_, ?_⟩
    · rw [hnum]; exact h0
    · rw [hnum]; exact hN

/-- Witness for the amended C3 at the concrete draw 1. -/
theorem C3_genPriv_amended_witness :
    genPriv [(1:Int)] = some (GF.make 1 Pv) ∧ (GF.make 1 Pv).num = 1 := by
  have h := (C3_genPriv_amended 1 []).2 (by decide) (by decide)
  exact ⟨h.1, h.2.2.1⟩

/-! ## C4 -/

/-- C4 counterexample: operator/ checks only the moduli, so dividing by the
zero element does not abort — it silently returns a value (the zero
element), here 1/0 = 0 in GF(5). -/
theorem C4_divzero_cex :
    GF.divChk (GF.make 1 5) (GF.make 0 5) = some (GF.make 0 5) := by decide

/-- C4 amended: division by the zero element of the same modulus m > 2 does
NOT fail: since 0^(m-2) = 0, a / 0 silently evaluates to the zero element. -/
theorem C4_divzero_amended (m : Int) (hm : 2 < m) (a : GF) (ha : a.prime = m) :
    GF.divChk a (GF.make 0 m) = some (GF.make 0 m) := by
  have hp : a.prime = (GF.make 0 m).prime := by rw [ha]; rfl
  have hm0 : (0:Int) % m = 0 := Int.zero_emod m
  have hexp : (m - 2) % (m - 1) = m - 2 :=
    Int.emod_eq_of_lt (by omega) (by omega)
  have hzero : (GF.make 0 m).pow (a.prime - 2) = GF.make 0 m := by
    show GF.make (powMod ((0:Int) % m).toNat
        ((a.prime - 2) % ((GF.make 0 m).prime - 1)).toNat m.toNat) m = GF.make 0 m
    rw [GF.make_prime, ha, hm0, hexp]
    have he : (0:Int) < m - 2 := by omega
    have hepos : 0 < (m - 2).toNat := by omega
    rw [powMod_eq]
    rw [Int.toNat_zero, zero_pow (by omega), Nat.zero_mod]
    rfl
  simp only [GF.divChk, hp, if_pos]
  show some ((GF.make a.num a.prime).mul ((GF.make 0 m).pow (a.prime - 2)))
      = some (GF.make 0 m)
  rw [hzero]
  have : (GF.make a.num a.prime).mul (GF.make 0 m) = GF.make 0 m := by
    show GF.make ((GF.make a.num a.prime).num * (GF.make 0 m).num) (GF.make a.num a.prime).prime
        = GF.make 0 m
    rw [GF.make_prime, ha]
    simp [GF.make, hm0]
  rw [this]

/-- Witness for the amended C4 at modulus 7. -/
theorem C4_divzero_amended_witness :
    GF.divChk (GF.make 3 7) (GF.make 0 7) = some (GF.make 0 7) :=
  C4_divzero_amended 7 (by decide) (GF.make 3 7) rfl

/-! ## C7 -/

/-- C7: every binary GF operator (addition, subtraction, multiplication,
division, remainder) aborts — returns no value — when the two operands
have different moduli. -/
theorem C7_mismatched_moduli (a b : GF) (h : a.prime ≠ b.prime) :
    a.addChk b = none ∧ a.subChk b = none ∧ a.mulChk b = none
    ∧ a.divChk b = none ∧ a.remChk b = none := by
  simp [GF.addChk, GF.subChk, GF.mulChk, GF.divChk, GF.remChk, h]

/-- Witness for C7 at moduli 5 and 7. -/
theorem C7_mismatched_moduli_witness :
    (GF.make 1 5).addChk (GF.make 1 7) = none
    ∧ (GF.make 1 5).remChk (GF.make 1 7) = none := by
  have h := C7_mismatched_moduli (GF.make 1 5) (GF.make 1 7) (by decide)
  exact ⟨h.1, h.2.2.2.2⟩

/-! ## C8 -/

/-- C8: for positive modulus m the constructor stores a value in [0, m), and
each arithmetic operation (add, subtract, negate, multiply, divide, pow,
remainder) on elements of modulus m yields a value again in [0, m) — every
operation funnels its raw big-integer result through mpz_mod and the
reducing constructor.  (The remainder conjunct assumes a nonzero divisor
element, since GMP division by zero does not return.) -/
theorem C8_reduced_invariant (m : Int) (hm : 0 < m) :
    (∀ n : Int, 0 ≤ (GF.make n m).num ∧ (GF.make n m).num < m)
    ∧ (∀ n1 n2 : Int, 0 ≤ ((GF.make n1 m).add (GF.make n2 m)).num
        ∧ ((GF.make n1 m).add (GF.make n2 m)).num < m)
    ∧ (∀ n1 n2 : Int, 0 ≤ ((GF.make n1 m).sub (GF.make n2 m)).num
        ∧ ((GF.make n1 m).sub (GF.make n2 m)).num < m)
    ∧ (∀ n : Int, 0 ≤ (GF.make n m).neg.num ∧ (GF.make n m).neg.num < m)
    ∧ (∀ n1 n2 : Int, 0 ≤ ((GF.make n1 m).mul (GF.make n2 m)).num
        ∧ ((GF.make n1 m).mul (GF.make n2 m)).num < m)
    ∧ (∀ n1 n2 : Int, 0 ≤ ((GF.make n1 m).div (GF.make n2 m)).num
        ∧ ((GF.make n1 m).div (GF.make n2 m)).num < m)
    ∧ (∀ n e : Int, 0 ≤ ((GF.make n m).pow e).num ∧ ((GF.make n m).pow e).num < m)
    ∧ (∀ n1 n2 : Int, (GF.make n2 m).num ≠ 0 →
        0 ≤ ((GF.make n1 m).rem (GF.make n2 m)).num
        ∧ ((GF.make n1 m).rem (GF.make n2 m)).num < m) := by
  have hr : ∀ x : Int, 0 ≤ (GF.make x m).num ∧ (GF.make x m).num < m :=
    fun x => ⟨GF.make_num_nonneg (ne_of_gt hm) x, GF.make_num_lt hm x⟩
  exact ⟨fun n => hr n,
    fun n1 n2 => hr _,
    fun n1 n2 => hr _,
    fun n => hr _,
    fun n1 n2 => hr _,
    fun n1 n2 => hr _,
    fun n e => hr _,
    fun n1 n2 _ => hr _⟩

/-- Witness for C8 at modulus 7 (addition instance). -/
theorem C8_reduced_invariant_witness :
    0 ≤ ((GF.make 9 7).add (GF.make 5 7)).num
    ∧ ((GF.make 9 7).add (GF.make 5 7)).num < 7 :=
  (C8_reduced_invariant 7 (by decide)).2.1 9 5

/-! ## C9 -/

/-- C9: for a prime modulus m, the zero element raised to any exponent
congruent to 0 mod (m-1) yields the ONE element, because GF::pow reduces
the exponent mod (m-1) before mpz_powm, and mpz_powm with exponent 0
returns 1 — in particular GF(0,m).pow(0) = 1 and GF(0,m).pow(m-1) = 1. -/
theorem C9_zero_pow_one (m : Nat) (hm : m.Prime) (e : Int)
    (he : e % ((m:Int) - 1) = 0) :
    (GF.make 0 (m:Int)).pow e = GF.make 1 (m:Int)
    ∧ (GF.make 0 (m:Int)).pow 0 = GF.make 1 (m:Int)
    ∧ (GF.make 0 (m:Int)).pow ((m:Int) - 1) = GF.make 1 (m:Int) := by
  have h2 : 2 ≤ m := hm.two_le
  have key : ∀ e' : Int, e' % ((m:Int) - 1) = 0 →
      (GF.make 0 (m:Int)).pow e' = GF.make 1 (m:Int) := by
    intro e' he'
    show GF.make (powMod ((0:Int) % (m:Int)).toNat
        (e' % ((GF.make 0 (m:Int)).prime - 1)).toNat ((m:Int)).toNat) (m:Int)
      = GF.make 1 (m:Int)
    rw [GF.make_prime, he', Int.zero_emod]
    rw [Int.toNat_zero, powMod_eq]
    have hmt : ((m:Int)).toNat = m := Int.toNat_natCast m
    rw [hmt, pow_zero, Nat.one_mod_eq_one.mpr (by omega)]
    rfl
  refine ⟨key e he, key 0 (by simp), key ((m:Int) - 1) (by simp)⟩

/-- Witness for C9 at m = 5, e = 8 (8 ≡ 0 mod 4). -/
theorem C9_zero_pow_one_witness :
    (GF.make 0 ((5:Nat):Int)).pow 8 = GF.make 1 ((5:Nat):Int) :=
  (C9_zero_pow_one 5 (by norm_num) 8 (by decide)).1

/-! ## C6 -/

/-- C6 counterexample: at prime modulus 5 and nonzero a = 2, the claimed
identity a.pow(m-2) * a == a.pow(1) fails: the left side is the one element
(Fermat), while the right side is a itself. -/
theorem C6_pow_identity_cex :
    Nat.Prime 5 ∧ (GF.make 2 ((5:Nat):Int)).num ≠ 0
    ∧ ((GF.make 2 ((5:Nat):Int)).pow (((5:Nat):Int) - 2)).mul (GF.make 2 ((5:Nat):Int))
      ≠ (GF.make 2 ((5:Nat):Int)).pow 1 := by
  refine ⟨by norm_num, by decide, by decide⟩

/-- C6 amended: for prime modulus m, pow reduces its exponent mod (m-1), so
a.pow(e) = a.pow(e mod (m-1)) for every a and integer e, and for a ≠ 0,
a.pow(-1) = a.pow(m-2); the inverse-exponent identity holds with a.pow(m-1)
(the one element) on the right — not a.pow(1): a.pow(m-2) * a == a.pow(m-1). -/
theorem C6_pow_amended (p : Nat) (hp : p.Prime) :
    (∀ n e : Int, (GF.make n (p:Int)).pow e = (GF.make n (p:Int)).pow (e % ((p:Int) - 1)))
    ∧ (∀ n : Int, (GF.make n (p:Int)).num ≠ 0 →
        (GF.make n (p:Int)).pow (-1) = (GF.make n (p:Int)).pow ((p:Int) - 2)
        ∧ ((GF.make n (p:Int)).pow ((p:Int) - 2)).mul (GF.make n (p:Int))
          = (GF.make n (p:Int)).pow ((p:Int) - 1)) := by
  have h2 : 2 ≤ p := hp.two_le
  have h2i : (2:Int) ≤ (p:Int) := by exact_mod_cast h2
  constructor
  · intro n e
    have hred : (e % ((p:Int) - 1)) % ((p:Int) - 1) = e % ((p:Int) - 1) :=
      Int.emod_emod_of_dvd e dvd_rfl
    simp only [GF.pow, GF.make_prime, hred]
  · intro n hn
    haveI : Fact p.Prime := ⟨hp⟩
    have hpne : ((p:Int)) ≠ 0 := by omega
    have hpt : ((p:Int)).toNat = p := Int.toNat_natCast p
    have hnz : ((n : ZMod p)) ≠ 0 := by
      intro h0
      exact hn (Int.emod_eq_zero_of_dvd
        ((ZMod.intCast_zmod_eq_zero_iff_dvd n p).mp h0))
    constructor
    · have hexp : (-1 : Int) % ((p:Int) - 1) = ((p:Int) - 2) % ((p:Int) - 1) := by
        have h := Int.add_mul_emod_self_left ((p:Int) - 2) ((p:Int) - 1) (-1)
        have heq : ((p:Int) - 2) + ((p:Int) - 1) * (-1) = -1 := by ring
        rw [heq] at h
        exact h
      simp only [GF.pow, GF.make_prime, hexp]
    · have hexp2 : ((p:Int) - 2) % ((p:Int) - 1) = (p:Int) - 2 :=
        Int.emod_eq_of_lt (by omega) (by omega)
      have hexp2t : ((p:Int) - 2).toNat = p - 2 := by omega
      have hexp1 : ((p:Int) - 1) % ((p:Int) - 1) = 0 := Int.emod_self
      have hb0 : 0 ≤ n % (p:Int) := Int.emod_nonneg n hpne
      have hR : (GF.make n (p:Int)).pow ((p:Int) - 1) = GF.make 1 (p:Int) := by
        simp only [GF.pow, GF.make_prime, hexp1, Int.toNat_zero, hpt]
        rw [powMod_eq, pow_zero, Nat.one_mod_eq_one.mpr (by omega)]
        rw [Nat.cast_one]
      rw [hR]
      have hXdef : (GF.make n (p:Int)).pow ((p:Int) - 2)
          = GF.make ((powMod (n % (p:Int)).toNat (p - 2) p : Nat) : Int) (p:Int) := by
        simp only [GF.pow, GF.make_prime, hexp2, hexp2t, hpt]
        rfl
      rw [hXdef]
      have hXlt : powMod (n % (p:Int)).toNat (p - 2) p < p :=
        powMod_lt _ _ (by omega)
      have hXnum : (GF.make ((powMod (n % (p:Int)).toNat (p - 2) p : Nat) : Int) (p:Int)).num
          = ((powMod (n % (p:Int)).toNat (p - 2) p : Nat) : Int) := by
        show ((powMod (n % (p:Int)).toNat (p - 2) p : Nat) : Int) % (p:Int) = _
        exact Int.emod_eq_of_lt (by positivity) (by exact_mod_cast hXlt)
      show GF.make ((GF.make ((powMod (n % (p:Int)).toNat (p - 2) p : Nat) : Int) (p:Int)).num
          * (GF.make n (p:Int)).num) (p:Int) = GF.make 1 (p:Int)
      rw [hXnum]
      have hnum : (GF.make n (p:Int)).num = n % (p:Int) := rfl
      rw [hnum]
      have hmain : (((powMod (n % (p:Int)).toNat (p - 2) p : Nat) : Int) * (n % (p:Int))) % (p:Int)
          = (1:Int) % (p:Int) := by
        rw [← ZMod.intCast_eq_intCast_iff']
        push_cast
        rw [powMod_eq]
        have hcast1 : (((n % (p:Int)).toNat ^ (p - 2) % p : Nat) : ZMod p)
            = ((n % (p:Int)).toNat : ZMod p) ^ (p - 2) := by
          rw [ZMod.natCast_mod, Nat.cast_pow]
        have hcast2 : (((n % (p:Int)).toNat : Nat) : ZMod p) = (n : ZMod p) := by
          rw [toNat_cast_zmod _ hb0, intCast_emod_zmod]
        rw [hcast1, hcast2]
        have hsucc : (n : ZMod p) ^ (p - 2) * (n : ZMod p) = (n : ZMod p) ^ (p - 1) := by
          rw [← pow_succ]
          congr 1
          omega
        rw [hsucc, ZMod.pow_card_sub_one_eq_one hnz]
      show GF.mk ((((powMod (n % (p:Int)).toNat (p - 2) p : Nat) : Int) * (n % (p:Int))) % (p:Int)) (p:Int)
          = GF.mk ((1:Int) % (p:Int)) (p:Int)
      rw [hmain]

/-- Witness for the amended C6 at p = 5, n = 2, e = -7. -/
theorem C6_pow_amended_witness :
    (GF.make 2 ((5:Nat):Int)).pow (-7)
      = (GF.make 2 ((5:Nat):Int)).pow ((-7) % (((5:Nat):Int) - 1))
    ∧ ((GF.make 2 ((5:Nat):Int)).pow (((5:Nat):Int) - 2)).mul (GF.make 2 ((5:Nat):Int))
      = (GF.make 2 ((5:Nat):Int)).pow (((5:Nat):Int) - 1) := by
  have h := C6_pow_amended 5 (by norm_num)
  exact ⟨h.1 2 (-7), (h.2 2 (by decide)).2⟩

/-! ## GF algebra on constructed elements -/

theorem GF.make_eq_make {a b p : Int} (h : a % p = b % p) :
    GF.make a p = GF.make b p := by
  show GF.mk (a % p) p = GF.mk (b % p) p
  rw [h]

theorem GF.add_make (n1 n2 p : Int) :
    (GF.make n1 p).add (GF.make n2 p) = GF.make (n1 + n2) p := by
  show GF.make (n1 % p + n2 % p) p = GF.make (n1 + n2) p
  exact GF.make_eq_make (by rw [← Int.add_emod])

theorem GF.sub_make (n1 n2 p : Int) :
    (GF.make n1 p).sub (GF.make n2 p) = GF.make (n1 - n2) p := by
  show GF.make (n1 % p - n2 % p) p = GF.make (n1 - n2) p
  exact GF.make_eq_make (by rw [← Int.sub_emod])

theorem GF.mul_make (n1 n2 p : Int) :
    (GF.make n1 p).mul (GF.make n2 p) = GF.make (n1 * n2) p := by
  show GF.make (n1 % p * (n2 % p)) p = GF.make (n1 * n2) p
  exact GF.make_eq_make (by rw [← Int.mul_emod])

theorem GF.neg_make (n p : Int) :
    (GF.make n p).neg = GF.make (-n) p := by
  show GF.make (-(n % p)) p = GF.make (-n) p
  refine GF.make_eq_make ?_
  have h := Int.sub_emod 0 n p
  have h2 := Int.sub_emod 0 (n % p) p
  simp only [zero_sub, Int.zero_emod] at h h2
  rw [h2, Int.emod_emod_of_dvd n dvd_rfl, ← h]

theorem GF.addI_make (n p c : Int) :
    (GF.make n p).addI c = GF.make (n + c) p := by
  unfold GF.addI
  rw [GF.make_prime, GF.make_idem, GF.add_make]

theorem GF.subI_make (n p c : Int) :
    (GF.make n p).subI c = GF.make (n - c) p := by
  unfold GF.subI
  rw [GF.make_prime, GF.make_idem, GF.sub_make]

theorem GF.mulI_make (n p c : Int) :
    (GF.make n p).mulI c = GF.make (n * c) p := by
  unfold GF.mulI
  rw [GF.make_prime, GF.make_idem, GF.mul_make]

theorem GF.powI_make (n p c : Int) :
    (GF.make n p).powI c = (GF.make n p).pow c := by
  unfold GF.powI
  rw [GF.make_prime, GF.make_idem]

/-- GF::pow on a constructed element, flattened to integer arithmetic. -/
theorem GF.pow_make (n p : Int) (hp : 0 < p) (e : Int) :
    (GF.make n p).pow e = GF.make ((n % p) ^ (e % (p - 1)).toNat) p := by
  show GF.make ((powMod (n % p).toNat (e % (p - 1)).toNat p.toNat : Nat) : Int) p
      = GF.make ((n % p) ^ (e % (p - 1)).toNat) p
  rw [powMod_eq]
  refine GF.make_eq_make ?_
  have hb : (((n % p).toNat : Nat) : Int) = n % p :=
    Int.toNat_of_nonneg (Int.emod_nonneg n (ne_of_gt hp))
  have hpt : ((p.toNat : Nat) : Int) = p := Int.toNat_of_nonneg (le_of_lt hp)
  push_cast
  rw [hb, hpt, Int.emod_emod_of_dvd _ dvd_rfl]

/-- operator/ on constructed elements, flattened: a / b = a * (b^(p-2)). -/
theorem GF.div_make (a m p : Int) (hp : 0 < p) :
    (GF.make a p).div (GF.make m p)
      = GF.make (a * (m % p) ^ (((p - 2) % (p - 1)).toNat)) p := by
  unfold GF.div
  rw [GF.make_prime, GF.make_idem, GF.pow_make m p hp, GF.mul_make]

theorem GF.add_prime (a b : GF) : (a.add b).prime = a.prime := rfl

theorem GF.sub_prime (a b : GF) : (a.sub b).prime = a.prime := rfl

theorem GF.mul_prime (a b : GF) : (a.mul b).prime = a.prime := rfl

theorem GF.neg_prime (a : GF) : a.neg.prime = a.prime := rfl

theorem GF.pow_prime (a : GF) (e : Int) : (a.pow e).prime = a.prime := rfl

theorem GF.div_prime (a b : GF) : (a.div b).prime = a.prime := rfl

theorem GF.rem_prime (a b : GF) : (a.rem b).prime = a.prime := rfl

theorem GF.addI_prime (a : GF) (c : Int) : (a.addI c).prime = a.prime := rfl

theorem GF.subI_prime (a : GF) (c : Int) : (a.subI c).prime = a.prime := rfl

theorem GF.mulI_prime (a : GF) (c : Int) : (a.mulI c).prime = a.prime := rfl

theorem GF.powI_prime (a : GF) (c : Int) : (a.powI c).prime = a.prime := rfl

/-! ## Modulus invariant of the curve layer -/

theorem pAdd_prime {p q : Point}
    (hp : p.x.prime = Pv ∧ p.y.prime = Pv) (hq : q.x.prime = Pv ∧ q.y.prime = Pv) :
    (pAdd p q).x.prime = Pv ∧ (pAdd p q).y.prime = Pv := by
  unfold pAdd
  by_cases h : (p.x.beq q.x && p.y.beq q.y) = true
  · simp only [h, if_true]
    constructor
    · show ((((((p.x.powI 2).mulI 3).div (p.y.mulI 2)).powI 2).sub p.x).sub q.x).prime = Pv
      rw [GF.sub_prime, GF.sub_prime, GF.powI_prime, GF.div_prime, GF.mulI_prime,
        GF.powI_prime]
      exact hp.1
    · show ((((((p.x.powI 2).mulI 3).div (p.y.mulI 2)).mul _).sub p.y)).prime = Pv
      rw [GF.sub_prime, GF.mul_prime, GF.div_prime, GF.mulI_prime, GF.powI_prime]
      exact hp.1
  · simp only [h, if_false]
    constructor
    · show (((((q.y.sub p.y).div (q.x.sub p.x)).powI 2).sub p.x).sub q.x).prime = Pv
      rw [GF.sub_prime, GF.sub_prime, GF.powI_prime, GF.div_prime, GF.sub_prime]
      exact hq.2
    · show ((((q.y.sub p.y).div (q.x.sub p.x)).mul _).sub p.y).prime = Pv
      rw [GF.sub_prime, GF.mul_prime, GF.div_prime, GF.sub_prime]
      exact hq.2

theorem p2pStep_prime {pub G : Point} (b : Bool)
    (hp : pub.x.prime = Pv ∧ pub.y.prime = Pv)
    (hG : G.x.prime = Pv ∧ G.y.prime = Pv) :
    (p2pStep pub G b).x.prime = Pv ∧ (p2pStep pub G b).y.prime = Pv := by
  unfold p2pStep
  by_cases hb : b = true
  · simp only [hb, if_true]
    by_cases hz : (pub.x.eqI 0 && pub.y.eqI 0) = true
    · simp only [hz, if_true]; exact hG
    · simp only [hz, if_false]; exact pAdd_prime hp hG
  · simp only [Bool.not_eq_true] at hb
    simp only [hb, Bool.false_eq_true, if_false]; exact hp

theorem p2pLoop_prime (sk : Nat) :
    ∀ fuel i (pub G : Point),
      pub.x.prime = Pv ∧ pub.y.prime = Pv →
      G.x.prime = Pv ∧ G.y.prime = Pv →
      (p2pLoop sk fuel i pub G).x.prime = Pv ∧ (p2pLoop sk fuel i pub G).y.prime = Pv := by
  intro fuel
  induction fuel with
  | zero => intro i pub G hp hG; exact hp
  | succ n ih =>
    intro i pub G hp hG
    exact ih (i + 1) _ _ (p2pStep_prime _ hp hG) (pAdd_prime hG hG)

theorem priv2pub_none_prime (sk : GF) :
    (priv2pub sk none).x.prime = Pv ∧ (priv2pub sk none).y.prime = Pv := by
  show (p2pLoop sk.num.toNat 256 0 pZero secpG).x.prime = Pv
    ∧ (p2pLoop sk.num.toNat 256 0 pZero secpG).y.prime = Pv
  exact p2pLoop_prime _ 256 0 pZero secpG ⟨rfl, rfl⟩ ⟨rfl, rfl⟩

/-! ## More flattened forms for the int-argument operators -/

theorem GF.subI_eq (a : GF) (c : Int) :
    a.subI c = GF.make (a.num - c) a.prime := GF.sub_make a.num c a.prime

theorem GF.remI_make (n p c : Int) :
    (GF.make n p).remI c = GF.make ((n % p) % (c % p)) p := by
  unfold GF.remI
  rw [GF.make_prime, GF.make_idem]
  rfl

theorem GF.eqI_make_iff (n p c : Int) :
    ((GF.make n p).eqI c = true) ↔ (n % p = c % p) := by
  unfold GF.eqI GF.beq
  rw [GF.make_prime, GF.make_idem]
  simp [GF.make]

/-! ## C2 -/

/-- C2: the recovery loop builds each candidate exactly as claimed —
x = r + order·⌊i/2⌋ over the field prime, α = x³ + 7, β = α^((P+1)/4),
y = β or −β by the parity test (β − i) mod 2 == 0 (parity of the field
representative of β − i), Q = scalarMul(r⁻¹ mod order, add(scalarMul(s,
(x,y)), scalarMul(−digest, G))) with r⁻¹ the Fermat inverse r^(N−2) mod N
(the program spells it pow(-1)) — and the verification result is accepted
iff one of the 4 candidates' encoded identities (compressed or
uncompressed) matches the claimed identity. -/
theorem C2_verify_recovery {α : Type} [DecidableEq α] (mkU mkC : Int → Int → α)
    (claimed : α) (r s z : Int) (i : Nat) (hi : i < 4) :
    recX (GF.make r Pv) i = GF.make (r + Nv * ((i / 2 : Nat) : Int)) Pv
    ∧ recAlpha (GF.make r Pv) i = GF.make ((recX (GF.make r Pv) i).num ^ 3 + 7) Pv
    ∧ recBeta (GF.make r Pv) i
      = GF.make ((recAlpha (GF.make r Pv) i).num ^ ((Pn + 1) / 4)) Pv
    ∧ recY (GF.make r Pv) i
      = (if (((recBeta (GF.make r Pv) i).num - (i : Int)) % Pv) % 2 = 0
          then recBeta (GF.make r Pv) i
          else (recBeta (GF.make r Pv) i).neg)
    ∧ (GF.make (GF.make r Pv).num Nv).powI (-1)
      = GF.make (((GF.make r Pv).num % Nv) ^ (Nn - 2)) Nv
    ∧ recQ (GF.make r Pv) (GF.make s Pv) (GF.make z Nv) i
      = priv2pub ((GF.make (GF.make r Pv).num Nv).powI (-1))
          (some (pAdd
            (priv2pub (GF.make s Pv)
              (some ⟨recX (GF.make r Pv) i, recY (GF.make r Pv) i⟩))
            (priv2pub (GF.make z Nv).neg none)))
    ∧ (verifyFound mkU mkC claimed (GF.make r Pv) (GF.make s Pv) (GF.make z Nv) = true
        ↔ ∃ j, j < 4
            ∧ (mkU (recQ (GF.make r Pv) (GF.make s Pv) (GF.make z Nv) j).x.num
                 (recQ (GF.make r Pv) (GF.make s Pv) (GF.make z Nv) j).y.num = claimed
              ∨ mkC (recQ (GF.make r Pv) (GF.make s Pv) (GF.make z Nv) j).x.num
                 (recQ (GF.make r Pv) (GF.make s Pv) (GF.make z Nv) j).y.num = claimed)) := by
  have h3t : (((3:Int)) % (Pv - 1)).toNat = 3 := by decide
  have ht4 : ((((Pv + 1) / 4)) % (Pv - 1)).toNat = (Pn + 1) / 4 := by decide
  have hinvt : (((-1):Int) % (Nv - 1)).toNat = Nn - 2 := by decide
  have h2P : (2:Int) % Pv = 2 := by decide
  have ha : recX (GF.make r Pv) i = GF.make (r + Nv * ((i / 2 : Nat) : Int)) Pv := by
    unfold recX
    rw [GF.mulI_make, GF.add_make]
  have hb : recAlpha (GF.make r Pv) i
      = GF.make ((recX (GF.make r Pv) i).num ^ 3 + 7) Pv := by
    unfold recAlpha
    rw [ha, GF.powI_make, GF.pow_make _ _ Ppos, h3t, GF.addI_make]
    rfl
  have hc : recBeta (GF.make r Pv) i
      = GF.make ((recAlpha (GF.make r Pv) i).num ^ ((Pn + 1) / 4)) Pv := by
    unfold recBeta
    rw [hb, GF.pow_make _ _ Ppos, ht4]
    rfl
  have hd : recY (GF.make r Pv) i
      = (if (((recBeta (GF.make r Pv) i).num - (i : Int)) % Pv) % 2 = 0
          then recBeta (GF.make r Pv) i
          else (recBeta (GF.make r Pv) i).neg) := by
    have hprime : (recBeta (GF.make r Pv) i).prime = Pv := by
      rw [hc]; exact GF.make_prime _ _
    have hsub : (recBeta (GF.make r Pv) i).subI (i : Int)
        = GF.make ((recBeta (GF.make r Pv) i).num - (i : Int)) Pv := by
      rw [GF.subI_eq, hprime]
    have hV0 : 0 ≤ (((recBeta (GF.make r Pv) i).num - (i : Int)) % Pv) % 2 :=
      Int.emod_nonneg _ (by decide)
    have hV2 : (((recBeta (GF.make r Pv) i).num - (i : Int)) % Pv) % 2 < 2 :=
      Int.emod_lt_of_pos _ (by decide)
    have hcond : ((((recBeta (GF.make r Pv) i).subI (i : Int)).remI 2).eqI 0 = true)
        ↔ ((((recBeta (GF.make r Pv) i).num - (i : Int)) % Pv) % 2 = 0) := by
      rw [hsub, GF.remI_make, h2P, GF.eqI_make_iff, Int.zero_emod]
      rw [Int.emod_eq_of_lt hV0 (lt_trans hV2 (by decide))]
    show (if (((recBeta (GF.make r Pv) i).subI (i : Int)).remI 2).eqI 0 = true
        then recBeta (GF.make r Pv) i else (recBeta (GF.make r Pv) i).neg) = _
    by_cases h : (((recBeta (GF.make r Pv) i).num - (i : Int)) % Pv) % 2 = 0
    · rw [if_pos (hcond.mpr h), if_pos h]
    · rw [if_neg (fun hc2 => h (hcond.mp hc2)), if_neg h]
  have he : (GF.make (GF.make r Pv).num Nv).powI (-1)
      = GF.make (((GF.make r Pv).num % Nv) ^ (Nn - 2)) Nv := by
    rw [GF.powI_make, GF.pow_make _ _ Npos, hinvt]
  refine ⟨ha, hb, hc, hd, he, rfl, ?_⟩
  simp only [verifyFound, List.any_eq_true, List.mem_range]
  constructor
  · rintro ⟨j, hj, hmatch⟩
    refine ⟨j, hj, ?_⟩
    simpa using hmatch
  · rintro ⟨j, hj, hmatch⟩
    refine ⟨j, hj, ?_⟩
    simpa using hmatch

/-- Witness for C2 at recovery id 0 with trivial encoders. -/
theorem C2_verify_recovery_witness :
    recX (GF.make 1 Pv) 0 = GF.make (1 + Nv * (((0 / 2 : Nat)) : Int)) Pv :=
  (C2_verify_recovery (fun _ _ => (0:Nat)) (fun _ _ => 0) 0 1 1 1 0 (by decide)).1

/-! ## C1 -/

set_option maxRecDepth 4000 in
/-- C1: one signing attempt sets r to the x-coordinate of scalarMul(k, G)
for the sampled nonce k, computes s = (digest + privateKey·r)/k entirely
over the group-order modulus (division being multiplication by k^(N-2), the
field inverse as the spec defines it), and the retry loop discards the pair
and moves to the next nonce exactly when r == 0 or s == 0, returning the
attempt otherwise. -/
theorem C1_sign_loop (z d k0 : Int) (hk0 : 0 < k0) (hkN : k0 < Nv) (ks : List GF) :
    (signAttempt (GF.make z Nv) (GF.make d Pv) (GF.make k0 Pv)).1
      = (priv2pub (GF.make k0 Pv) none).x
    ∧ (signAttempt (GF.make z Nv) (GF.make d Pv) (GF.make k0 Pv)).2.prime = Nv
    ∧ 0 ≤ (signAttempt (GF.make z Nv) (GF.make d Pv) (GF.make k0 Pv)).2.num
    ∧ (signAttempt (GF.make z Nv) (GF.make d Pv) (GF.make k0 Pv)).2.num < Nv
    ∧ ((signAttempt (GF.make z Nv) (GF.make d Pv) (GF.make k0 Pv)).2.num : ZMod Nn)
      = ((z : ZMod Nn)
          + ((GF.make d Pv).num : ZMod Nn)
            * ((priv2pub (GF.make k0 Pv) none).x.num : ZMod Nn))
        * (k0 : ZMod Nn) ^ (Nn - 2)
    ∧ ((priv2pub (GF.make k0 Pv) none).x.num = 0
        ∨ (signAttempt (GF.make z Nv) (GF.make d Pv) (GF.make k0 Pv)).2.num = 0 →
        signInner (GF.make z Nv) (GF.make d Pv) (GF.make k0 Pv :: ks)
          = signInner (GF.make z Nv) (GF.make d Pv) ks)
    ∧ ((priv2pub (GF.make k0 Pv) none).x.num ≠ 0 →
        (signAttempt (GF.make z Nv) (GF.make d Pv) (GF.make k0 Pv)).2.num ≠ 0 →
        signInner (GF.make z Nv) (GF.make d Pv) (GF.make k0 Pv :: ks)
          = some (signAttempt (GF.make z Nv) (GF.make d Pv) (GF.make k0 Pv))) := by
  have hE : ((Nv - 2) % (Nv - 1)).toNat = Nn - 2 := by decide
  have hknum : (GF.make k0 Pv).num = k0 :=
    Int.emod_eq_of_lt (le_of_lt hk0) (lt_trans hkN NltP)
  have hkN2 : k0 % Nv = k0 := Int.emod_eq_of_lt (le_of_lt hk0) hkN
  have hS : (signAttempt (GF.make z Nv) (GF.make d Pv) (GF.make k0 Pv)).2
      = GF.make ((z + (GF.make d Pv).num * (priv2pub (GF.make k0 Pv) none).x.num)
          * k0 ^ (Nn - 2)) Nv := by
    show ((GF.make z Nv).add ((GF.make (GF.make d Pv).num Nv).mul
          (GF.make (priv2pub (GF.make k0 Pv) none).x.num Nv))).div
        (GF.make (GF.make k0 Pv).num Nv) = _
    rw [hknum, GF.mul_make, GF.add_make, GF.div_make _ _ _ Npos, hE, hkN2]
  have hfst : (signAttempt (GF.make z Nv) (GF.make d Pv) (GF.make k0 Pv)).1
      = (priv2pub (GF.make k0 Pv) none).x := rfl
  have hRprime : (priv2pub (GF.make k0 Pv) none).x.prime = Pv :=
    (priv2pub_none_prime _).1
  have hz0 : (GF.make 0 Pv).num = 0 := by decide
  have hz0N : (GF.make 0 Nv).num = 0 := by decide
  have hbeqR : ((priv2pub (GF.make k0 Pv) none).x.beq (GF.make 0 Pv) = true)
      ↔ (priv2pub (GF.make k0 Pv) none).x.num = 0 := by
    simp [GF.beq, hRprime, hz0, GF.make_prime]
  have hbeqS : ∀ W : Int, ((GF.make W Nv).beq (GF.make 0 Nv) = true)
      ↔ (GF.make W Nv).num = 0 := by
    intro W
    simp [GF.beq, hz0N, GF.make_prime]
  have hNvNat : ((Nn : Nat) : Int) = Nv := by decide
  refine ⟨hfst, ?_, ?_, ?_, ?_, ?_, ?_⟩
  · rw [hS]; exact GF.make_prime _ _
  · rw [hS]; exact GF.make_num_nonneg (ne_of_gt Npos) _
  · rw [hS]; exact GF.make_num_lt Npos _
  · rw [hS]
    have hnum : ∀ w : Int, (GF.make w Nv).num = w % Nv := fun w => rfl
    rw [hnum, ← hNvNat, intCast_emod_zmod]
    push_cast
    ring
  · intro h
    have hrej : signRejected (signAttempt (GF.make z Nv) (GF.make d Pv)
        (GF.make k0 Pv)) = true := by
      unfold signRejected
      rw [hfst, hS, Bool.or_eq_true]
      rcases h with h | h
      · exact Or.inl (hbeqR.mpr h)
      · rw [hS] at h
        exact Or.inr ((hbeqS _).mpr h)
    show (if signRejected (signAttempt (GF.make z Nv) (GF.make d Pv)
        (GF.make k0 Pv)) = true
      then signInner (GF.make z Nv) (GF.make d Pv) ks
      else some (signAttempt (GF.make z Nv) (GF.make d Pv) (GF.make k0 Pv))) = _
    rw [if_pos hrej]
  · intro h1 h2
    have hrej : signRejected (signAttempt (GF.make z Nv) (GF.make d Pv)
        (GF.make k0 Pv)) = false := by
      unfold signRejected
      rw [hfst, hS, Bool.or_eq_false_iff]
      refine ⟨Bool.eq_false_iff.mpr (fun hb => h1 (hbeqR.mp hb)), ?_⟩
      refine Bool.eq_false_iff.mpr (fun hb => h2 ?_)
      rw [hS]
      exact (hbeqS _).mp hb
    show (if signRejected (signAttempt (GF.make z Nv) (GF.make d Pv)
        (GF.make k0 Pv)) = true
      then signInner (GF.make z Nv) (GF.make d Pv) ks
      else some (signAttempt (GF.make z Nv) (GF.make d Pv) (GF.make k0 Pv))) = _
    rw [if_neg (by rw [hrej]; exact Bool.false_ne_true)]

/-- Witness for C1 at nonce 1 with digest 1 and private value 1. -/
theorem C1_sign_loop_witness :
    (signAttempt (GF.make 1 Nv) (GF.make 1 Pv) (GF.make 1 Pv)).1
      = (priv2pub (GF.make 1 Pv) none).x :=
  (C1_sign_loop 1 1 1 (by decide) (by decide) []).1
